import Mathlib

/-!
Verification of the simulation process supervisor of symba-gui.

The embedding mirrors `src/symba_gui/simulation.py` (class `Simulation`) and
the argument-vector construction in `src/symba_gui/__main__.py`
(`Application.modelParams` / `Application.cliArgs`).

Modelling notes:
* Python regular expressions `re_round = "Round (\\d+)/\\d+:"` and
  `re_step = "  step +(\\d+)/\\d+"` are used through `re.match`, which anchors
  the pattern at the start of the line and only requires a prefix match.
  They are embedded as character-list matchers `matchRound` and `matchStep`.
* `re.split("[\r\n]+", buf)` is embedded as `splitSeps`: maximal runs of
  carriage returns and newlines separate the segments.
* The `Simulation` object state is the structure `Sim`; the `poll` loop is
  embedded functionally (`pollIter`, `pollLoop`) over a list of iteration
  inputs, each input being the chunk returned by `stdout.read` together with
  the result of `process.poll()` at the end of that iteration.
* Qt signal emissions are recorded as values of the `Event` type.
-/

namespace SymbaGui

/-- A character is a line separator for the buffer split (class `[\r\n]`). -/
def isSep (c : Char) : Bool := c == '\r' || c == '\n'

/-- Worker for `splitSeps`: scans left to right keeping the current segment
(reversed) in `acc`; `inRun` is true while inside a run of separators, so a
maximal run produces a single boundary, as `re.split("[\r\n]+", _)` does. -/
def splitSepsGo : List Char → List Char → Bool → List (List Char)
  | [], acc, _ => [acc.reverse]
  | c :: cs, acc, inRun =>
    if isSep c then
      if inRun then splitSepsGo cs acc inRun
      else acc.reverse :: splitSepsGo cs [] true
    else splitSepsGo cs (c :: acc) false

/-- Embedding of `re.split(self.re_separators, stdout)` from `Simulation.poll`:
split the accumulated buffer on maximal runs of `\r`/`\n`. -/
def splitSeps (s : String) : List (List Char) := splitSepsGo s.toList [] false

/-- Match a literal character sequence as a prefix, returning the remainder. -/
def stripLit : List Char → List Char → Option (List Char)
  | [], cs => some cs
  | _ :: _, [] => none
  | l :: ls, c :: cs => if c = l then stripLit ls cs else none

/-- Base-10 value of a digit run, as Python `int` on the captured group. -/
def digitsVal (ds : List Char) : Nat :=
  ds.foldl (fun a c => a * 10 + (c.toNat - '0'.toNat)) 0

/-- Match `\d+` greedily at the front: the maximal (nonempty) digit run and
the remainder. -/
def takeDigits1 (cs : List Char) : Option (Nat × List Char) :=
  let ds := cs.takeWhile Char.isDigit
  if ds.isEmpty then none else some (digitsVal ds, cs.dropWhile Char.isDigit)

/-- Embedding of `re.match(re_round, line)` with capture, for the pattern
`Round (\d+)/\d+:`; anchored at the start of the line, trailing text free. -/
def matchRound (line : List Char) : Option Nat :=
  match stripLit "Round ".toList line with
  | none => none
  | some r1 =>
    match takeDigits1 r1 with
    | none => none
    | some (n, r2) =>
      match stripLit ['/'] r2 with
      | none => none
      | some r3 =>
        match takeDigits1 r3 with
        | none => none
        | some (_, r4) =>
          match stripLit [':'] r4 with
          | none => none
          | some _ => some n

/-- Embedding of `re.match(re_step, line)` with capture, for the pattern
`  step +(\d+)/\d+`: exactly two spaces, the literal `step`, one or more
further spaces, the captured digit run, `/`, a digit run; anchored at the
start of the line, trailing text free. -/
def matchStep (line : List Char) : Option Nat :=
  match stripLit "  step".toList line with
  | none => none
  | some r1 =>
    if (r1.takeWhile (fun c => c == ' ')).isEmpty then none
    else
      match takeDigits1 (r1.dropWhile (fun c => c == ' ')) with
      | none => none
      | some (n, r3) =>
        match stripLit ['/'] r3 with
        | none => none
        | some r4 =>
          match takeDigits1 r4 with
          | none => none
          | some _ => some n

/-- The inner backward scan of `Simulation.poll` once the step was found:
walk further back for the first line matching `re_round`; the extracted
number is decremented (`int(match[1]) - 1`). -/
def scanRound : List (List Char) → Option Int
  | [] => none
  | l :: ls =>
    match matchRound l with
    | some n => some ((n : Int) - 1)
    | none => scanRound ls

/-- The backward scan of `Simulation.poll` over the reversed line list:
find the first line matching `re_step` (the latest step line), then scan the
remaining (earlier) lines for the round; both counters are decremented. -/
def scanLines : List (List Char) → Option Int × Option Int
  | [] => (none, none)
  | l :: ls =>
    match matchStep l with
    | some n => (scanRound ls, some ((n : Int) - 1))
    | none => scanLines ls

/-- One parse of the accumulated buffer, as in `Simulation.poll` lines 66-81:
split on separator runs, scan lines in reverse, return `(round, step)`,
each `none` when not found. -/
def parseBuffer (stdout : String) : Option Int × Option Int :=
  scanLines (splitSeps stdout).reverse

/-- State of a `Simulation` object as set up by `Simulation.__init__`:
`process` is the optional child-process handle (abstracted as a number),
the rest are the fields of the same names. -/
structure Sim where
  process : Option Nat
  current_round : Option Int
  current_step : Option Int
  return_code : Option Int
  terminate_flag : Bool
deriving DecidableEq, Repr

/-- The freshly constructed object: everything absent, flag unset. -/
def initSim : Sim :=
  { process := none, current_round := none, current_step := none,
    return_code := none, terminate_flag := false }

/-- `Simulation.running`: the process handle is set and no return code has
been recorded. -/
def running (st : Sim) : Bool := st.process.isSome && st.return_code.isNone

/-- Effect of `Simulation.start` on the object state: install a (fresh)
process handle. Nothing else is touched; in particular `return_code`,
`current_round`, `current_step` and `terminate_flag` keep their values. -/
def startFn (st : Sim) (h : Nat) : Sim := { st with process := some h }

/-- `Simulation.terminate`: when `running`, set `terminate_flag` and request
OS termination (the returned boolean records whether the request was sent);
otherwise do nothing. -/
def terminateFn (st : Sim) : Sim × Bool :=
  if running st then ({ st with terminate_flag := true }, true) else (st, false)

/-- Qt signal emissions of `Simulation`: `stepChanged` carries the parsed
round and step (possibly absent), `completed` carries the exit code. -/
inductive Event
  | stepChanged (round step : Option Int)
  | completed (code : Int)
deriving DecidableEq, Repr

/-- Whether an event is a completion notification. -/
def isCompleted : Event → Bool
  | Event.completed _ => true
  | _ => false

/-- Number of completion notifications in an event list. -/
def countCompleted (evs : List Event) : Nat := (evs.filter isCompleted).length

/-- The body of one `poll` iteration up to and including the `stepChanged`
emission (lines 65-86): append the chunk read from stdout, parse the whole
buffer, and emit `stepChanged` exactly when the parsed pair differs from the
stored pair, updating the stored pair. Returns (state, buffer, emissions). -/
def iterCore (st : Sim) (buf chunk : String) : Sim × String × List Event :=
  let buf2 := buf ++ chunk
  let rs := parseBuffer buf2
  if rs.1 ≠ st.current_round ∨ rs.2 ≠ st.current_step then
    ({ st with current_round := rs.1, current_step := rs.2 }, buf2,
      [Event.stepChanged rs.1 rs.2])
  else (st, buf2, [])

/-- One full `poll` iteration (lines 65-93): the parse-and-emit body, then
`process.poll()`; when that returns an exit code, record it, emit
`completed`, and stop (final component `true`). -/
def pollIter (st : Sim) (buf chunk : String) (pollRes : Option Int) :
    Sim × String × List Event × Bool :=
  match pollRes with
  | some c =>
      ({ (iterCore st buf chunk).1 with return_code := some c },
        (iterCore st buf chunk).2.1,
        (iterCore st buf chunk).2.2 ++ [Event.completed c], true)
  | none =>
      ((iterCore st buf chunk).1, (iterCore st buf chunk).2.1,
        (iterCore st buf chunk).2.2, false)

/-- The `while True` loop of `Simulation.poll`, driven by a list of
iteration inputs (chunk read, `process.poll()` result); it returns from
inside the first iteration whose poll result is an exit code. -/
def pollLoop (st : Sim) (buf : String) :
    List (String × Option Int) → Sim × String × List Event
  | [] => (st, buf, [])
  | (chunk, some c) :: _ =>
      ((pollIter st buf chunk (some c)).1, (pollIter st buf chunk (some c)).2.1,
        (pollIter st buf chunk (some c)).2.2.1)
  | (chunk, none) :: rest =>
      ((pollLoop (pollIter st buf chunk none).1 (pollIter st buf chunk none).2.1 rest).1,
       (pollLoop (pollIter st buf chunk none).1 (pollIter st buf chunk none).2.1 rest).2.1,
       (pollIter st buf chunk none).2.2.1 ++
         (pollLoop (pollIter st buf chunk none).1 (pollIter st buf chunk none).2.1 rest).2.2)

/-- Program counter of the supervisor, at the granularity relevant to
observers on other threads: `idle` before `start`, `loopHead` at the top of
the `while True` loop in `poll`, `preEmit c` between the assignment
`self.return_code = return_code` (line 91) and the emission
`self.completed.emit(return_code)` (line 92), `finished` after `poll`
returned. -/
inductive PC
  | idle
  | loopHead
  | preEmit (code : Int)
  | finished
deriving DecidableEq, Repr

/-- A whole-system configuration: object state, the `poll`-local buffer, the
iteration inputs not yet consumed, the log of emitted signals, and the
reader's program counter. -/
structure Config where
  sim : Sim
  buf : String
  pending : List (String × Option Int)
  events : List Event
  pc : PC
deriving DecidableEq, Repr

/-- Small-step transitions of the supervisor. `start` spawns the reader;
`iter` is a full loop iteration whose `process.poll()` returned `None`;
`record` is the final iteration up to and including the assignment of
`return_code`; `emit` is the `completed` emission; `term` is a call to
`terminate()` from any thread at any time. -/
inductive Step : Config → Config → Prop
  | start (st : Sim) (buf : String) (pending : List (String × Option Int))
      (events : List Event) (h : Nat) :
      Step ⟨st, buf, pending, events, PC.idle⟩
        ⟨startFn st h, buf, pending, events, PC.loopHead⟩
  | iter (st : Sim) (buf chunk : String) (rest : List (String × Option Int))
      (events : List Event) :
      Step ⟨st, buf, (chunk, none) :: rest, events, PC.loopHead⟩
        ⟨(iterCore st buf chunk).1, (iterCore st buf chunk).2.1, rest,
          events ++ (iterCore st buf chunk).2.2, PC.loopHead⟩
  | record (st : Sim) (buf chunk : String) (c : Int)
      (rest : List (String × Option Int)) (events : List Event) :
      Step ⟨st, buf, (chunk, some c) :: rest, events, PC.loopHead⟩
        ⟨{ (iterCore st buf chunk).1 with return_code := some c },
          (iterCore st buf chunk).2.1, rest,
          events ++ (iterCore st buf chunk).2.2, PC.preEmit c⟩
  | emit (st : Sim) (buf : String) (pending : List (String × Option Int))
      (events : List Event) (c : Int) :
      Step ⟨st, buf, pending, events, PC.preEmit c⟩
        ⟨st, buf, pending, events ++ [Event.completed c], PC.finished⟩
  | term (st : Sim) (buf : String) (pending : List (String × Option Int))
      (events : List Event) (pc : PC) :
      Step ⟨st, buf, pending, events, pc⟩
        ⟨(terminateFn st).1, buf, pending, events, pc⟩

/-- Reachability along `Step`. -/
def Reach (c₀ c : Config) : Prop := Relation.ReflTransGen Step c₀ c

/-- Configuration of a fresh instance about to run on the given inputs. -/
def initCfg (inputs : List (String × Option Int)) : Config :=
  ⟨initSim, "", inputs, [], PC.idle⟩

/-- Configuration immediately after a successful `start()`. -/
def startCfg (h : Nat) (inputs : List (String × Option Int)) : Config :=
  ⟨startFn initSim h, "", inputs, [], PC.loopHead⟩

/-- The operations callable on a `Simulation` object, for trace reasoning:
`opStart` is `start()` (spawning handle `h`), `opTerminate` is
`terminate()`, `opIter` is one iteration of the background reader. -/
inductive Op
  | opStart (h : Nat)
  | opTerminate
  | opIter (chunk : String) (pollRes : Option Int)

/-- Apply one operation to (object state, reader buffer). -/
def applyOp : Sim × String → Op → Sim × String
  | (st, buf), Op.opStart h => (startFn st h, buf)
  | (st, buf), Op.opTerminate => ((terminateFn st).1, buf)
  | (st, buf), Op.opIter chunk pr =>
      ((pollIter st buf chunk pr).1, (pollIter st buf chunk pr).2.1)

/-- Apply a sequence of operations. -/
def runOps (s : Sim × String) (ops : List Op) : Sim × String :=
  ops.foldl applyOp s

/-- A Python value appearing in the `modelParams` dict of
`Application.modelParams`. `vFloat` carries the `str()` rendering of the
float read from a `QDoubleSpinBox` (the float itself is an external input;
its text form is what the argument vector uses). -/
inductive PyVal
  | vInt (i : Int)
  | vFloat (rep : String)
  | vBool (b : Bool)
  | vStr (s : String)
deriving DecidableEq, Repr

/-- Python `str()` on the parameter values: `True`/`False` for booleans,
decimal for integers, the carried rendering for floats, identity on
strings. -/
def pyStr : PyVal → String
  | PyVal.vInt i => toString i
  | PyVal.vFloat rep => rep
  | PyVal.vBool b => if b then "True" else "False"
  | PyVal.vStr s => s

/-- The widget values read by `Application.modelParams`: integer spin boxes,
double spin boxes (as their `str()` renderings), the plot check box, the two
combo boxes, and the extra-argument list obtained by `shlex.split` on the
additional-arguments line (stored in the source dict under the key
`__extra` and popped again by `cliArgs`; here kept as a separate field). -/
structure ParamsInput where
  n_agents : Int
  n_stocks : Int
  n_steps : Int
  n_rounds : Int
  rate : String
  plot : Bool
  type_neb : String
  hp_gesture : String
  liquidation_floor : Int
  leader_type : String
  cluster_limit : Int
  extra : List String

/-- `Application.modelParams` without the special `__extra` entry: the
ordered key/value list of recognized simulation parameters (Python dicts
preserve insertion order). -/
def modelParams (p : ParamsInput) : List (String × PyVal) :=
  [("n-agents", PyVal.vInt p.n_agents),
   ("n-stocks", PyVal.vInt p.n_stocks),
   ("n-steps", PyVal.vInt p.n_steps),
   ("n-rounds", PyVal.vInt p.n_rounds),
   ("rate", PyVal.vFloat p.rate),
   ("plot", PyVal.vBool p.plot),
   ("type-neb", PyVal.vStr p.type_neb),
   ("hp-gesture", PyVal.vFloat p.hp_gesture),
   ("liquidation-floor", PyVal.vInt p.liquidation_floor),
   ("leader-type", PyVal.vStr p.leader_type),
   ("cluster-limit", PyVal.vInt p.cluster_limit)]

/-- `Application.cliArgs`: `--key value` for each parameter in dict order,
then the popped extra arguments, then `--output-dir` with the output
directory path. -/
def cliArgs (p : ParamsInput) (output_dir : String) : List String :=
  ((modelParams p).flatMap fun kv => ["--" ++ kv.1, pyStr kv.2])
    ++ p.extra ++ ["--output-dir", output_dir]

/-- Invariant for C7: before `start` the handle is absent, after it one is
installed and never removed. -/
def procInv (cfg : Config) : Prop :=
  (cfg.pc = PC.idle ∧ cfg.sim.process = none) ∨ cfg.sim.process.isSome = true

/-- Invariant for C2, relative to the handle `h` installed by `start`: the
reader is either still looping with no return code and no completion
emitted, or between recording the exit code and emitting the completion, or
finished with the completion emitted exactly once. -/
def superInv (h : Nat) (cfg : Config) : Prop :=
  cfg.sim.process = some h ∧
  ((cfg.pc = PC.loopHead ∧ cfg.sim.return_code = none ∧
      countCompleted cfg.events = 0) ∨
   (∃ c, cfg.pc = PC.preEmit c ∧ cfg.sim.return_code = some c ∧
      countCompleted cfg.events = 0) ∨
   (∃ c, cfg.pc = PC.finished ∧ cfg.sim.return_code = some c ∧
      countCompleted cfg.events = 1))

/-! Helper lemmas. -/

/-- The parse-and-emit body never emits a completion notification. -/
theorem iterCore_events_not_completed (st : Sim) (buf chunk : String) :
    ∀ e ∈ (iterCore st buf chunk).2.2, isCompleted e = false := by
  intro e he
  simp only [iterCore] at he
  split at he
  · simp at he
    subst he
    rfl
  · simp at he

/-- The parse-and-emit body only touches `current_round` / `current_step`. -/
theorem iterCore_fields (st : Sim) (buf chunk : String) :
    (iterCore st buf chunk).1.process = st.process ∧
    (iterCore st buf chunk).1.return_code = st.return_code ∧
    (iterCore st buf chunk).1.terminate_flag = st.terminate_flag := by
  simp only [iterCore]
  split <;> exact ⟨rfl, rfl, rfl⟩

/-- `terminate()` only touches `terminate_flag`. -/
theorem terminateFn_fields (st : Sim) :
    (terminateFn st).1.process = st.process ∧
    (terminateFn st).1.return_code = st.return_code ∧
    (terminateFn st).1.current_round = st.current_round ∧
    (terminateFn st).1.current_step = st.current_step := by
  simp only [terminateFn]
  split <;> exact ⟨rfl, rfl, rfl, rfl⟩

/-- Completion count distributes over concatenation. -/
theorem countCompleted_append (a b : List Event) :
    countCompleted (a ++ b) = countCompleted a + countCompleted b := by
  simp [countCompleted, List.filter_append]

/-- A list with no completion events has completion count zero. -/
theorem countCompleted_eq_zero (evs : List Event)
    (h : ∀ e ∈ evs, isCompleted e = false) : countCompleted evs = 0 := by
  induction evs with
  | nil => rfl
  | cons e es ih =>
    have he := h e (by simp)
    have hrest : countCompleted es = 0 :=
      ih fun x hx => h x (List.mem_cons_of_mem _ hx)
    simp [countCompleted, List.filter_cons, he] at *
    exact hrest

/-- Lines matching no step pattern are skipped by the backward scan. -/
theorem scanLines_stepfree (pre ls : List (List Char))
    (hpre : ∀ l ∈ pre, matchStep l = none) :
    scanLines (pre ++ ls) = scanLines ls := by
  induction pre with
  | nil => rfl
  | cons l pre ih =>
    have h := hpre l (by simp)
    have ih2 := ih fun l' hl' => hpre l' (List.mem_cons_of_mem _ hl')
    simp [scanLines, h, ih2]

/-- The round scan returns the decrement of the first round match. -/
theorem scanRound_eq_findSome (ls : List (List Char)) :
    scanRound ls = (ls.findSome? matchRound).map (fun m => (m : Int) - 1) := by
  induction ls with
  | nil => rfl
  | cons l ls ih =>
    cases h : matchRound l with
    | some n => simp [scanRound, List.findSome?, h]
    | none => simp [scanRound, List.findSome?, h, ih]

/-- A line matched by the step pattern is never matched by the round
pattern (step lines start with a space, round lines with `R`). -/
theorem matchStep_not_round (l : List Char) (n : Nat)
    (h : matchStep l = some n) : matchRound l = none := by
  cases l with
  | nil => simp [matchStep, stripLit] at h
  | cons c cs =>
    by_cases hc : c = ' '
    · subst hc
      simp [matchRound, stripLit]
    · simp [matchStep, stripLit, hc] at h

/-! Claim theorems. -/

/-- Claim C4: the parser extracts the 1-based round and step counters and
decrements each by one before reporting: a line matched by the step pattern
with captured value `n` is reported as step `n - 1`, a line matched by the
round pattern with captured value `n` is reported as round `n - 1`, and the
buffer `"Round 2/10:\n  step 5/100\n"` parses to round 1, step 4 and makes a
fresh supervisor emit the progress event `stepChanged (some 1) (some 4)`. -/
theorem claimC4_decrement :
    (∀ (l : List Char) (ls : List (List Char)) (n : Nat), matchStep l = some n →
        scanLines (l :: ls) = (scanRound ls, some ((n : Int) - 1))) ∧
    (∀ (l : List Char) (ls : List (List Char)) (n : Nat), matchRound l = some n →
        scanRound (l :: ls) = some ((n : Int) - 1)) ∧
    parseBuffer "Round 2/10:\n  step 5/100\n" = (some 1, some 4) ∧
    (iterCore initSim "" "Round 2/10:\n  step 5/100\n").2.2 =
      [Event.stepChanged (some 1) (some 4)] := by
  refine ⟨?_, ?_, by decide, by decide⟩
  · intro l ls n h
    simp [scanLines, h]
  · intro l ls n h
    simp [scanRound, h]

/-- Witness for C4 at the concrete line pair. -/
theorem claimC4_decrement_witness :
    scanLines ["  step 5/100".toList, "Round 2/10:".toList] =
      (scanRound ["Round 2/10:".toList], some 4) := by
  have h := claimC4_decrement.1 ("  step 5/100".toList) ["Round 2/10:".toList] 5
    (by decide)
  simpa using h

/-- Claim C5: on each poll of the accumulated buffer, a `stepChanged` event
is emitted iff the newly parsed (round, step) pair differs in at least one
component from the stored pair; when emitted it carries the new pair, and a
re-parse yielding the stored pair emits nothing. -/
theorem claimC5_dedup :
    (∀ (st : Sim) (buf chunk : String),
      (iterCore st buf chunk).2.2 ≠ [] ↔
        ((parseBuffer (buf ++ chunk)).1 ≠ st.current_round ∨
         (parseBuffer (buf ++ chunk)).2 ≠ st.current_step)) ∧
    (∀ (st : Sim) (buf chunk : String),
      parseBuffer (buf ++ chunk) = (st.current_round, st.current_step) →
        (iterCore st buf chunk).2.2 = []) ∧
    (∀ (st : Sim) (buf chunk : String),
      ((parseBuffer (buf ++ chunk)).1 ≠ st.current_round ∨
       (parseBuffer (buf ++ chunk)).2 ≠ st.current_step) →
        (iterCore st buf chunk).2.2 =
          [Event.stepChanged (parseBuffer (buf ++ chunk)).1
            (parseBuffer (buf ++ chunk)).2]) := by
  refine ⟨fun st buf chunk => ?_, fun st buf chunk h => ?_, fun st buf chunk h => ?_⟩
  · by_cases h : (parseBuffer (buf ++ chunk)).1 ≠ st.current_round ∨
        (parseBuffer (buf ++ chunk)).2 ≠ st.current_step
    · simp [iterCore, h]
    · simp [iterCore, h]
  · have hne : ¬((parseBuffer (buf ++ chunk)).1 ≠ st.current_round ∨
        (parseBuffer (buf ++ chunk)).2 ≠ st.current_step) := by
      rw [h]
      simp
    simp [iterCore, hne]
  · simp [iterCore, h]

/-- Witness for C5: the empty buffer parse equals the fresh stored pair, so
nothing is emitted; a buffer with a new step emits exactly that pair. -/
theorem claimC5_dedup_witness :
    (iterCore initSim "" "").2.2 = [] ∧
    (iterCore initSim "" "  step 4/10").2.2 =
      [Event.stepChanged (parseBuffer ("" ++ "  step 4/10")).1
        (parseBuffer ("" ++ "  step 4/10")).2] := by
  exact ⟨claimC5_dedup.2.1 initSim "" "" (by decide),
         claimC5_dedup.2.2 initSim "" "  step 4/10" (by decide)⟩

/-- Claim C6: `terminate()` sets the flag and sends the OS termination
request iff the supervisor is running; when not running (including on a
fresh instance, before `start()`) it is a no-op; and `terminate_flag` is
monotonic: no operation ever resets it. -/
theorem claimC6_terminate :
    (∀ st : Sim, running st = true →
        terminateFn st = ({ st with terminate_flag := true }, true)) ∧
    (∀ st : Sim, running st = false → terminateFn st = (st, false)) ∧
    (∀ st : Sim, (terminateFn st).1.terminate_flag =
        (st.terminate_flag || running st)) ∧
    (running initSim = false ∧ terminateFn initSim = (initSim, false)) ∧
    (∀ (st : Sim) (h : Nat), (startFn st h).terminate_flag = st.terminate_flag) ∧
    (∀ (st : Sim) (buf chunk : String) (pr : Option Int),
        (pollIter st buf chunk pr).1.terminate_flag = st.terminate_flag) ∧
    (∀ st : Sim, st.terminate_flag = true →
        (terminateFn st).1.terminate_flag = true) := by
  refine ⟨fun st h => ?_, fun st h => ?_, fun st => ?_, ⟨by decide, by decide⟩,
    fun st h => rfl, fun st buf chunk pr => ?_, fun st h => ?_⟩
  · simp [terminateFn, h]
  · simp [terminateFn, h]
  · by_cases h : running st <;> simp [terminateFn, h]
  · cases pr <;> simp [pollIter, (iterCore_fields st buf chunk).2.2]
  · by_cases hr : running st <;> simp [terminateFn, hr, h]

/-- Witness for C6 at a running and a fresh state. -/
theorem claimC6_terminate_witness :
    terminateFn (startFn initSim 0) =
      ({ startFn initSim 0 with terminate_flag := true }, true) ∧
    terminateFn initSim = (initSim, false) :=
  ⟨claimC6_terminate.1 (startFn initSim 0) (by decide),
   claimC6_terminate.2.1 initSim (by decide)⟩

/-- Claim C9: the argument vector is the ordered list of `--key value`
pairs for the recognized parameters, in dict insertion order, followed by
the free-form extra arguments, followed last by `--output-dir` and the
output path; booleans render as `True`/`False`, integers in decimal. -/
theorem claimC9_cliArgs_order (p : ParamsInput) (d : String) :
    cliArgs p d =
      ["--n-agents", toString p.n_agents,
       "--n-stocks", toString p.n_stocks,
       "--n-steps", toString p.n_steps,
       "--n-rounds", toString p.n_rounds,
       "--rate", p.rate,
       "--plot", if p.plot then "True" else "False",
       "--type-neb", p.type_neb,
       "--hp-gesture", p.hp_gesture,
       "--liquidation-floor", toString p.liquidation_floor,
       "--leader-type", p.leader_type,
       "--cluster-limit", toString p.cluster_limit]
      ++ p.extra ++ ["--output-dir", d] := by
  simp [cliArgs, modelParams, pyStr]

/-- Claim C10: no operation ever clears `return_code` once set; any
sequence of further operations keeps it set and keeps `running` false, so a
second `start()` on a completed instance installs a fresh process handle
while `running` stays false and `terminate()` stays a no-op. -/
theorem claimC10_return_code_monotone :
    (∀ (s : Sim × String) (op : Op), s.1.return_code.isSome = true →
        ((applyOp s op).1.return_code.isSome = true ∧
          running (applyOp s op).1 = false)) ∧
    (∀ (s : Sim × String) (ops : List Op), s.1.return_code.isSome = true →
        ((runOps s ops).1.return_code.isSome = true ∧
          running (runOps s ops).1 = false)) ∧
    (∀ (st : Sim) (h : Nat), st.return_code.isSome = true →
        ((startFn st h).process = some h ∧ running (startFn st h) = false ∧
         terminateFn (startFn st h) = (startFn st h, false))) := by
  have hrun : ∀ st : Sim, st.return_code.isSome = true → running st = false := by
    intro st h
    obtain ⟨c, hc⟩ := Option.isSome_iff_exists.mp h
    simp [running, hc]
  have hop : ∀ (s : Sim × String) (op : Op), s.1.return_code.isSome = true →
      (applyOp s op).1.return_code.isSome = true := by
    intro ⟨st, buf⟩ op h
    cases op with
    | opStart hh => exact h
    | opTerminate =>
      simp only [applyOp]
      rw [(terminateFn_fields st).2.1]
      exact h
    | opIter chunk pr =>
      cases pr with
      | none =>
        simp only [applyOp, pollIter]
        rw [(iterCore_fields st buf chunk).2.1]
        exact h
      | some c => simp [applyOp, pollIter]
  refine ⟨fun s op h => ⟨hop s op h, hrun _ (hop s op h)⟩, fun s ops h => ?_, ?_⟩
  · have hkeep : (runOps s ops).1.return_code.isSome = true := by
      induction ops generalizing s with
      | nil => exact h
      | cons op ops ih => exact ih (applyOp s op) (hop s op h)
    exact ⟨hkeep, hrun _ hkeep⟩
  · intro st h hrc
    refine ⟨rfl, hrun _ hrc, ?_⟩
    have : running (startFn st h) = false := hrun _ hrc
    simp [terminateFn, this]

/-- Witness for C10: a completed instance stays not running across a
restart, a terminate call and a further poll iteration. -/
theorem claimC10_witness :
    (runOps ({ initSim with return_code := some 3 }, "")
        [Op.opStart 1, Op.opTerminate, Op.opIter "x" none]).1.return_code.isSome
      = true ∧
    running (runOps ({ initSim with return_code := some 3 }, "")
        [Op.opStart 1, Op.opTerminate, Op.opIter "x" none]).1 = false :=
  claimC10_return_code_monotone.2.1 _ _ (by decide)

/-- Claim C1: when an iteration of the reading loop observes the exit code
(the first iteration whose `process.poll()` is non-`None`), the loop records
it into `return_code`, the emitted event list contains exactly one
completion notification, it carries that exit code, and it is the last
event emitted. -/
theorem claimC1_completion_last (st : Sim) (buf : String)
    (pre : List (String × Option Int)) (chunk : String) (c : Int)
    (rest : List (String × Option Int))
    (hpre : ∀ x ∈ pre, x.2 = none) :
    (pollLoop st buf (pre ++ (chunk, some c) :: rest)).1.return_code = some c ∧
    countCompleted (pollLoop st buf (pre ++ (chunk, some c) :: rest)).2.2 = 1 ∧
    ∃ evs₀, (pollLoop st buf (pre ++ (chunk, some c) :: rest)).2.2
        = evs₀ ++ [Event.completed c] ∧ ∀ e ∈ evs₀, isCompleted e = false := by
  induction pre generalizing st buf with
  | nil =>
    refine ⟨rfl, ?_, (iterCore st buf chunk).2.2, rfl, iterCore_events_not_completed st buf chunk⟩
    show countCompleted ((iterCore st buf chunk).2.2 ++ [Event.completed c]) = 1
    rw [countCompleted_append,
      countCompleted_eq_zero _ (iterCore_events_not_completed st buf chunk)]
    rfl
  | cons x pre ih =>
    obtain ⟨ch, pr⟩ := x
    have hx : pr = none := hpre (ch, pr) (by simp)
    subst hx
    have hrest : ∀ y ∈ pre, y.2 = none := fun y hy =>
      hpre y (List.mem_cons_of_mem _ hy)
    obtain ⟨h1, h2, evs₀, he, hn⟩ :=
      ih (pollIter st buf ch none).1 (pollIter st buf ch none).2.1 hrest
    refine ⟨h1, ?_, (pollIter st buf ch none).2.2.1 ++ evs₀, ?_, ?_⟩
    · show countCompleted ((pollIter st buf ch none).2.2.1 ++
        (pollLoop (pollIter st buf ch none).1 (pollIter st buf ch none).2.1
          (pre ++ (chunk, some c) :: rest)).2.2) = 1
      rw [countCompleted_append, h2]
      simp only [pollIter]
      rw [countCompleted_eq_zero _ (iterCore_events_not_completed st buf ch)]
    · show (pollIter st buf ch none).2.2.1 ++
        (pollLoop (pollIter st buf ch none).1 (pollIter st buf ch none).2.1
          (pre ++ (chunk, some c) :: rest)).2.2 =
        ((pollIter st buf ch none).2.2.1 ++ evs₀) ++ [Event.completed c]
      rw [he, List.append_assoc]
    · intro e hee
      rcases List.mem_append.mp hee with h | h
      · exact iterCore_events_not_completed st buf ch e h
      · exact hn e h

/-- Witness for C1: a two-iteration run whose second poll observes exit
code 7. -/
theorem claimC1_completion_last_witness :
    (pollLoop initSim "" [("", none), ("done", some 7)]).1.return_code = some 7 ∧
    countCompleted (pollLoop initSim "" [("", none), ("done", some 7)]).2.2 = 1 ∧
    ∃ evs₀, (pollLoop initSim "" [("", none), ("done", some 7)]).2.2
        = evs₀ ++ [Event.completed 7] ∧ ∀ e ∈ evs₀, isCompleted e = false :=
  claimC1_completion_last initSim "" [("", none)] "done" 7 [] (by decide)

/-- Claim C3: the backward scan takes the step from the latest line matching
the step pattern and the round from the most recent round line at or before
it (step lines never match the round pattern, so at-or-before coincides with
strictly-before); unfound fields are reported absent. Concrete scenario: an
earlier complete round/step pair followed by a later step-only line reports
that earlier round with the later step. -/
theorem claimC3_reverse_scan :
    (∀ (A B : List (List Char)) (l : List Char) (n : Nat),
      (∀ l' ∈ B, matchStep l' = none) → matchStep l = some n →
      scanLines ((A ++ l :: B).reverse) =
        ((A.reverse.findSome? matchRound).map (fun m => (m : Int) - 1),
          some ((n : Int) - 1))) ∧
    (∀ (l : List Char) (n : Nat), matchStep l = some n → matchRound l = none) ∧
    parseBuffer "Round 3/10:\n  step 2/100\n  step 8/100" = (some 2, some 7) ∧
    parseBuffer "hello" = (none, none) ∧
    parseBuffer "  step 4/10" = (none, some 3) := by
  refine ⟨?_, matchStep_not_round, by decide, by decide, by decide⟩
  intro A B l n hB hl
  have hrev : (A ++ l :: B).reverse = B.reverse ++ l :: A.reverse := by
    simp
  rw [hrev, scanLines_stepfree B.reverse (l :: A.reverse)
    (fun l' hl' => hB l' (List.mem_reverse.mp hl'))]
  simp [scanLines, hl, scanRound_eq_findSome]

/-- Witness for C3 at the concrete scenario buffer. -/
theorem claimC3_reverse_scan_witness :
    scanLines ((["Round 3/10:".toList, "  step 2/100".toList] ++
        "  step 8/100".toList :: []).reverse) =
      ((["Round 3/10:".toList, "  step 2/100".toList].reverse.findSome?
          matchRound).map (fun m => (m : Int) - 1), some 7) := by
  have h := claimC3_reverse_scan.1 ["Round 3/10:".toList, "  step 2/100".toList]
    [] ("  step 8/100".toList) 8 (by decide) (by decide)
  simpa using h

/-- takeWhile over a prefix in which every element satisfies the test. -/
theorem takeWhile_append_all {α : Type} (p : α → Bool) (l1 l2 : List α)
    (h : ∀ c ∈ l1, p c = true) :
    (l1 ++ l2).takeWhile p = l1 ++ l2.takeWhile p := by
  induction l1 with
  | nil => rfl
  | cons a l ih =>
    have ha := h a (by simp)
    simp [List.takeWhile_cons, ha,
      ih fun c hc => h c (List.mem_cons_of_mem _ hc)]

/-- dropWhile over a prefix in which every element satisfies the test. -/
theorem dropWhile_append_all {α : Type} (p : α → Bool) (l1 l2 : List α)
    (h : ∀ c ∈ l1, p c = true) :
    (l1 ++ l2).dropWhile p = l2.dropWhile p := by
  induction l1 with
  | nil => rfl
  | cons a l ih =>
    have ha := h a (by simp)
    simp [List.dropWhile_cons, ha,
      ih fun c hc => h c (List.mem_cons_of_mem _ hc)]

/-- Matching a literal prefix strips exactly that prefix. -/
theorem stripLit_append (lit rest : List Char) :
    stripLit lit (lit ++ rest) = some rest := by
  induction lit with
  | nil => rfl
  | cons c cs ih => simp [stripLit, ih]

/-- A digit character is not a space (for the space/digit boundary of the
step pattern). -/
theorem digit_ne_space {c : Char} (h : c.isDigit = true) : (c == ' ') = false := by
  by_cases hc : c = ' '
  · subst hc
    exact absurd h (by decide)
  · simp [hc]

/-- Claim C8 counterexample: the step pattern is anchored at the start of
the line by `re.match`, so a line with three leading spaces is not
recognized, contradicting "two or more spaces". -/
theorem claimC8_counterexample :
    matchStep ("   step 5/100".toList) = none ∧
    parseBuffer "   step 5/100" = (none, none) := by decide

/-- Claim C8 amended: a line is recognized as a step line exactly in the
anchored form: exactly two spaces, the literal `step`, one or more further
spaces, a digit run (extracted as the step number), a slash, a digit run,
then arbitrary trailing text; a third leading space defeats the match. -/
theorem claimC8_amended :
    (∀ (sp ds ds2 rest : List Char),
      sp ≠ [] → (∀ c ∈ sp, c = ' ') →
      ds ≠ [] → (∀ c ∈ ds, c.isDigit = true) →
      ds2 ≠ [] → (∀ c ∈ ds2, c.isDigit = true) →
      matchStep ("  step".toList ++ (sp ++ (ds ++ '/' :: (ds2 ++ rest)))) =
        some (digitsVal ds)) ∧
    (∀ s : List Char, matchStep (' ' :: ' ' :: ' ' :: s) = none) := by
  constructor
  · intro sp ds ds2 rest hsp hspAll hds hdsAll hds2 hds2All
    obtain ⟨s0, sp', rfl⟩ : ∃ s0 sp', sp = s0 :: sp' := by
      cases sp with
      | nil => exact absurd rfl hsp
      | cons s0 sp' => exact ⟨s0, sp', rfl⟩
    obtain ⟨d, ds', rfl⟩ : ∃ d ds', ds = d :: ds' := by
      cases ds with
      | nil => exact absurd rfl hds
      | cons d ds' => exact ⟨d, ds', rfl⟩
    obtain ⟨d2, ds2', rfl⟩ : ∃ d2 ds2', ds2 = d2 :: ds2' := by
      cases ds2 with
      | nil => exact absurd rfl hds2
      | cons d2 ds2' => exact ⟨d2, ds2', rfl⟩
    have hspB : ∀ c ∈ s0 :: sp', (fun c => c == ' ') c = true := by
      intro c hc
      simp [hspAll c hc]
    have hd : d.isDigit = true := hdsAll d (by simp)
    have hd2 : d2.isDigit = true := hds2All d2 (by simp)
    have htw : (((s0 :: sp') ++ ((d :: ds') ++ '/' :: (d2 :: ds2') ++ rest)).takeWhile
        (fun c => c == ' ')) = (s0 :: sp') := by
      rw [takeWhile_append_all _ _ _ hspB]
      simp [List.takeWhile_cons, digit_ne_space hd]
    have hdw : (((s0 :: sp') ++ ((d :: ds') ++ '/' :: (d2 :: ds2') ++ rest)).dropWhile
        (fun c => c == ' ')) = (d :: ds') ++ '/' :: (d2 :: ds2') ++ rest := by
      rw [dropWhile_append_all _ _ _ hspB]
      simp [List.dropWhile_cons, digit_ne_space hd]
    have hdsB : ∀ c ∈ d :: ds', Char.isDigit c = true := hdsAll
    have htd : takeDigits1 ((d :: ds') ++ '/' :: ((d2 :: ds2') ++ rest)) =
        some (digitsVal (d :: ds'), '/' :: ((d2 :: ds2') ++ rest)) := by
      unfold takeDigits1
      rw [takeWhile_append_all _ _ _ hdsB, dropWhile_append_all _ _ _ hdsB]
      simp [List.takeWhile_cons, List.dropWhile_cons]
    obtain ⟨v, hv⟩ : ∃ v, takeDigits1 ((d2 :: ds2') ++ rest) = some v := by
      unfold takeDigits1
      simp only [List.cons_append, List.takeWhile_cons, hd2, if_true,
        List.isEmpty_cons, Bool.false_eq_true, if_false]
      exact ⟨_, rfl⟩
    unfold matchStep
    simp only [List.cons_append, List.append_assoc] at htw hdw htd hv ⊢
    simp only [stripLit_append, htw, List.isEmpty_cons, Bool.false_eq_true,
      if_false, hdw, htd]
    simp [stripLit, hv]
  · intro s
    rfl

/-- Witness for the amended C8: line `"  step 42/9"` with one separating
space matches with step 42; three leading spaces never match. -/
theorem claimC8_amended_witness :
    matchStep ("  step".toList ++ ([' '] ++ (['4', '2'] ++ '/' :: (['9'] ++ [])))) =
      some (digitsVal ['4', '2']) ∧
    matchStep (' ' :: ' ' :: ' ' :: "step 5/10".toList) = none :=
  ⟨claimC8_amended.1 [' '] ['4', '2'] ['9'] [] (by decide) (by decide)
      (by decide) (by decide) (by decide) (by decide),
   claimC8_amended.2 ("step 5/10".toList)⟩

/-- The process-handle invariant is preserved by every step. -/
theorem procInv_step {c c' : Config} (hs : Step c c') (hi : procInv c) :
    procInv c' := by
  cases hs with
  | start st buf pending events h => exact Or.inr rfl
  | iter st buf chunk rest events =>
    rcases hi with ⟨hpc, _⟩ | hsome
    · simp [procInv] at hpc
    · refine Or.inr ?_
      show (iterCore st buf chunk).1.process.isSome = true
      rw [(iterCore_fields st buf chunk).1]
      exact hsome
  | record st buf chunk cc rest events =>
    rcases hi with ⟨hpc, _⟩ | hsome
    · simp [procInv] at hpc
    · refine Or.inr ?_
      show ({ (iterCore st buf chunk).1 with return_code := some cc }).process.isSome = true
      have : ({ (iterCore st buf chunk).1 with return_code := some cc }).process =
          (iterCore st buf chunk).1.process := rfl
      rw [this, (iterCore_fields st buf chunk).1]
      exact hsome
  | emit st buf pending events cc =>
    rcases hi with ⟨hpc, _⟩ | hsome
    · simp [procInv] at hpc
    · exact Or.inr hsome
  | term st buf pending events pc =>
    rcases hi with ⟨hpc, hnone⟩ | hsome
    · refine Or.inl ⟨hpc, ?_⟩
      show (terminateFn st).1.process = none
      rw [(terminateFn_fields st).1]
      exact hnone
    · refine Or.inr ?_
      show (terminateFn st).1.process.isSome = true
      rw [(terminateFn_fields st).1]
      exact hsome

/-- The process-handle invariant holds in every reachable configuration. -/
theorem procInv_reach {c c' : Config} (hr : Reach c c') (hi : procInv c) :
    procInv c' := by
  induction hr with
  | refl => exact hi
  | tail _ hstep ih => exact procInv_step hstep ih

/-- Claim C7: `running` is definitionally the conjunction "process set and
return code absent"; and in every reachable configuration past `start`,
exactly one of "running" and "return code recorded" holds. -/
theorem claimC7_running_invariant :
    (∀ st : Sim, running st = (st.process.isSome && st.return_code.isNone)) ∧
    (∀ (inputs : List (String × Option Int)) (cfg : Config),
      Reach (initCfg inputs) cfg → cfg.pc ≠ PC.idle →
      ((running cfg.sim = true ∧ cfg.sim.return_code = none) ∨
       (running cfg.sim = false ∧ cfg.sim.return_code.isSome = true))) := by
  refine ⟨fun st => rfl, fun inputs cfg hr hpc => ?_⟩
  have hinv : procInv cfg := procInv_reach hr (Or.inl ⟨rfl, rfl⟩)
  rcases hinv with ⟨hidle, _⟩ | hsome
  · exact absurd hidle hpc
  · cases hrc : cfg.sim.return_code with
    | none => exact Or.inl ⟨by simp [running, hsome, hrc], by simp [hrc]⟩
    | some c => exact Or.inr ⟨by simp [running, hrc], by simp [hrc]⟩

/-- Witness for C7 in the configuration right after `start()`. -/
theorem claimC7_running_invariant_witness :
    (running (⟨startFn initSim 0, "", [], [], PC.loopHead⟩ : Config).sim = true ∧
      (⟨startFn initSim 0, "", [], [], PC.loopHead⟩ : Config).sim.return_code = none) ∨
    (running (⟨startFn initSim 0, "", [], [], PC.loopHead⟩ : Config).sim = false ∧
      (⟨startFn initSim 0, "", [], [], PC.loopHead⟩ : Config).sim.return_code.isSome = true) :=
  claimC7_running_invariant.2 [] ⟨startFn initSim 0, "", [], [], PC.loopHead⟩
    (Relation.ReflTransGen.single (Step.start initSim "" [] [] 0)) (by decide)

/-- The supervisor invariant is preserved by every step taken after
`start`. -/
theorem superInv_step {h : Nat} {c c' : Config} (hs : Step c c')
    (hi : superInv h c) : superInv h c' := by
  obtain ⟨hproc, hbr⟩ := hi
  cases hs with
  | start st buf pending events h2 =>
    rcases hbr with ⟨hpc, _⟩ | ⟨cc, hpc, _⟩ | ⟨cc, hpc, _⟩ <;> simp at hpc
  | iter st buf chunk rest events =>
    rcases hbr with ⟨_, hrc, hcnt⟩ | ⟨cc, hpc, _⟩ | ⟨cc, hpc, _⟩
    · refine ⟨?_, Or.inl ⟨rfl, ?_, ?_⟩⟩
      · show (iterCore st buf chunk).1.process = some h
        rw [(iterCore_fields st buf chunk).1]
        exact hproc
      · show (iterCore st buf chunk).1.return_code = none
        rw [(iterCore_fields st buf chunk).2.1]
        exact hrc
      · show countCompleted (events ++ (iterCore st buf chunk).2.2) = 0
        rw [countCompleted_append,
          countCompleted_eq_zero _ (iterCore_events_not_completed st buf chunk)]
        simpa using hcnt
    · simp at hpc
    · simp at hpc
  | record st buf chunk cc rest events =>
    rcases hbr with ⟨_, _, hcnt⟩ | ⟨c2, hpc, _⟩ | ⟨c2, hpc, _⟩
    · refine ⟨?_, Or.inr (Or.inl ⟨cc, rfl, rfl, ?_⟩)⟩
      · show ({ (iterCore st buf chunk).1 with return_code := some cc }).process = some h
        have heq : ({ (iterCore st buf chunk).1 with return_code := some cc }).process =
            (iterCore st buf chunk).1.process := rfl
        rw [heq, (iterCore_fields st buf chunk).1]
        exact hproc
      · show countCompleted (events ++ (iterCore st buf chunk).2.2) = 0
        rw [countCompleted_append,
          countCompleted_eq_zero _ (iterCore_events_not_completed st buf chunk)]
        simpa using hcnt
    · simp at hpc
    · simp at hpc
  | emit st buf pending events cc =>
    rcases hbr with ⟨hpc, _⟩ | ⟨c2, hpc, hrc, hcnt⟩ | ⟨c2, hpc, _⟩
    · simp at hpc
    · have hc2 : c2 = cc := by
        have : PC.preEmit cc = PC.preEmit c2 := hpc
        cases this
        rfl
      subst hc2
      refine ⟨hproc, Or.inr (Or.inr ⟨c2, rfl, hrc, ?_⟩)⟩
      show countCompleted (events ++ [Event.completed c2]) = 1
      rw [countCompleted_append]
      have hev : countCompleted events = 0 := hcnt
      rw [hev]
      rfl
    · simp at hpc
  | term st buf pending events pc =>
    have hproc2 : (terminateFn st).1.process = some h := by
      rw [(terminateFn_fields st).1]
      exact hproc
    have hrcpres : (terminateFn st).1.return_code = st.return_code :=
      (terminateFn_fields st).2.1
    rcases hbr with ⟨hpc, hrc, hcnt⟩ | ⟨c2, hpc, hrc, hcnt⟩ | ⟨c2, hpc, hrc, hcnt⟩
    · refine ⟨hproc2, Or.inl ⟨hpc, ?_, hcnt⟩⟩
      show (terminateFn st).1.return_code = none
      rw [hrcpres]
      exact hrc
    · refine ⟨hproc2, Or.inr (Or.inl ⟨c2, hpc, ?_, hcnt⟩)⟩
      show (terminateFn st).1.return_code = some c2
      rw [hrcpres]
      exact hrc
    · refine ⟨hproc2, Or.inr (Or.inr ⟨c2, hpc, ?_, hcnt⟩)⟩
      show (terminateFn st).1.return_code = some c2
      rw [hrcpres]
      exact hrc

/-- The supervisor invariant holds in every configuration reachable from
the post-`start` configuration. -/
theorem superInv_reach {h : Nat} {inputs : List (String × Option Int)}
    {cfg : Config} (hr : Reach (startCfg h inputs) cfg) : superInv h cfg := by
  induction hr with
  | refl => exact ⟨rfl, Or.inl ⟨rfl, rfl, rfl⟩⟩
  | tail _ hstep ih => exact superInv_step hstep ih

/-- Claim C2 counterexample: a reachable point after a successful `start`
(one start step, then the final iteration up to the `return_code`
assignment on line 91) at which `running` is already false while no
completion notification has been emitted yet: the recording precedes the
emission, so the claimed window-freeness fails. -/
theorem claimC2_counterexample :
    Reach (initCfg [("", some 0)])
      ⟨{ (iterCore (startFn initSim 0) "" "").1 with return_code := some 0 },
        (iterCore (startFn initSim 0) "" "").2.1, [],
        [] ++ (iterCore (startFn initSim 0) "" "").2.2, PC.preEmit 0⟩ ∧
    running { (iterCore (startFn initSim 0) "" "").1 with return_code := some 0 }
      = false ∧
    countCompleted ([] ++ (iterCore (startFn initSim 0) "" "").2.2) = 0 ∧
    running (startFn initSim 0) = true := by
  refine ⟨?_, by decide, by decide, by decide⟩
  have h1 : Step (initCfg [("", some 0)])
      ⟨startFn initSim 0, "", [("", some 0)], [], PC.loopHead⟩ :=
    Step.start initSim "" [("", some 0)] [] 0
  have h2 : Step ⟨startFn initSim 0, "", [("", some 0)], [], PC.loopHead⟩
      ⟨{ (iterCore (startFn initSim 0) "" "").1 with return_code := some 0 },
        (iterCore (startFn initSim 0) "" "").2.1, [],
        [] ++ (iterCore (startFn initSim 0) "" "").2.2, PC.preEmit 0⟩ :=
    Step.record (startFn initSim 0) "" "" 0 [] []
  exact Relation.ReflTransGen.head h1 (Relation.ReflTransGen.single h2)

/-- Claim C2 amended: `running` is true immediately after a successful
`start()`; in every configuration reachable after `start` in which
`running` is false and no completion notification has fired, the exit code
has just been recorded and the reader stands immediately before the
completion emission (`preEmit`); and from such a point the reader's only
possible actions leave it there (a `terminate` call) or emit exactly the
completion notification next. -/
theorem claimC2_amended :
    (∀ h : Nat, running (startFn initSim h) = true) ∧
    (∀ (h : Nat) (inputs : List (String × Option Int)) (cfg : Config),
      Reach (startCfg h inputs) cfg →
      running cfg.sim = false → countCompleted cfg.events = 0 →
      ∃ c, cfg.pc = PC.preEmit c ∧ cfg.sim.return_code = some c) ∧
    (∀ (cfg cfg2 : Config) (c : Int), cfg.pc = PC.preEmit c → Step cfg cfg2 →
      cfg2.pc = PC.preEmit c ∨
        (cfg2.events = cfg.events ++ [Event.completed c] ∧
          cfg2.pc = PC.finished)) := by
  refine ⟨fun h => rfl, fun h inputs cfg hr hrun hcnt => ?_,
    fun cfg cfg2 c hpc hs => ?_⟩
  · obtain ⟨hproc, hbr⟩ := superInv_reach hr
    rcases hbr with ⟨hpcl, hrc, _⟩ | ⟨c2, hpc2, hrc, _⟩ | ⟨c2, hpcf, hrc, hcnt1⟩
    · unfold running at hrun
      rw [hproc, hrc] at hrun
      simp at hrun
    · exact ⟨c2, hpc2, hrc⟩
    · rw [hcnt] at hcnt1
      exact absurd hcnt1 (by decide)
  · cases hs with
    | start st buf pending events h2 => simp at hpc
    | iter st buf chunk rest events => simp at hpc
    | record st buf chunk cc rest events => simp at hpc
    | emit st buf pending events cc =>
      have hcc : cc = c := by
        injection hpc
      subst hcc
      exact Or.inr ⟨rfl, rfl⟩
    | term st buf pending events pc => exact Or.inl hpc

/-- Witness for the amended C2: applied after the concrete `record` step of
the counterexample run. -/
theorem claimC2_amended_witness :
    running (startFn initSim 0) = true ∧
    (∃ c, (⟨{ (iterCore (startFn initSim 0) "" "").1 with return_code := some 0 },
        (iterCore (startFn initSim 0) "" "").2.1, [],
        [] ++ (iterCore (startFn initSim 0) "" "").2.2, PC.preEmit 0⟩ : Config).pc =
          PC.preEmit c ∧
      (⟨{ (iterCore (startFn initSim 0) "" "").1 with return_code := some 0 },
        (iterCore (startFn initSim 0) "" "").2.1, [],
        [] ++ (iterCore (startFn initSim 0) "" "").2.2,
          PC.preEmit 0⟩ : Config).sim.return_code = some c) := by
  refine ⟨claimC2_amended.1 0,
    claimC2_amended.2.1 0 [("", some 0)] _ ?_ (by decide) (by decide)⟩
  exact Relation.ReflTransGen.single (Step.record (startFn initSim 0) "" "" 0 [] [])

end SymbaGui
